import Mathlib

/-!
Verification of the `efi-bindgen` extraction core (`src/parser.rs`, `src/types.rs`).

The clang AST is shallowly embedded as a pair of mutually inductive trees
(`CType` for `clang::Type`, `CEntity` for `clang::Entity`), carrying exactly the
observations the Rust code makes on them: kind, display name, declaration,
pointee type, canonical type (`none` means the type is its own canonical type),
function result/argument types, aggregate field list; entity kind, name,
associated type, typedef underlying type, children, and source-file path.

Rust `panic!`/`expect` is modelled as a third outcome (`PResult.crash`),
distinct from a returned `Err` (`PResult.err`).
-/

set_option maxHeartbeats 1000000

namespace EfiBindgen

/-- `types.rs`: the closed type-tag sum `EfiType`. -/
inductive EfiType : Type where
  | Status : EfiType
  | Bool : EfiType
  | Int8 : EfiType
  | UInt8 : EfiType
  | Int16 : EfiType
  | UInt16 : EfiType
  | Int32 : EfiType
  | UInt32 : EfiType
  | Int64 : EfiType
  | UInt64 : EfiType
  | IntN : EfiType
  | UIntN : EfiType
  | Char8 : EfiType
  | Char16 : EfiType
  | Id : String → EfiType
  | Ptr : EfiType → EfiType
deriving Repr, DecidableEq

/-- `types.rs`: argument direction. -/
inductive EfiArgDir : Type where
  | In : EfiArgDir
  | Out : EfiArgDir
deriving Repr, DecidableEq

/-- `types.rs`: one method argument. -/
structure EfiArg : Type where
  name : String
  typ : EfiType
  dir : EfiArgDir
  optional : Bool
deriving Repr, DecidableEq

/-- `types.rs`: one protocol method. -/
structure EfiMethod : Type where
  name : String
  typ : EfiType
  args : List EfiArg
deriving Repr, DecidableEq

/-- `types.rs`: one record or protocol data field. -/
structure EfiField : Type where
  name : String
  typ : EfiType
deriving Repr, DecidableEq

/-- `types.rs`: a struct or union record. -/
inductive EfiRecord : Type where
  | EfiStruct : String → List EfiField → EfiRecord
  | EfiUnion : String → List EfiField → EfiRecord
deriving Repr, DecidableEq

/-- `types.rs`: one extracted protocol. -/
structure EfiProtocol : Type where
  name : String
  methods : List EfiMethod
  fields : List EfiField
deriving Repr, DecidableEq

/-- `types.rs`: the whole extracted module. -/
structure EfiModule : Type where
  protocols : List EfiProtocol
  records : List EfiRecord
deriving Repr, DecidableEq

/-- The `clang::TypeKind` values the code distinguishes; every other kind
behaves identically and is lumped into `OtherKind`. -/
inductive TypeKind : Type where
  | Record : TypeKind
  | Enum : TypeKind
  | Pointer : TypeKind
  | Typedef : TypeKind
  | FunctionPrototype : TypeKind
  | OtherKind : TypeKind
deriving Repr, DecidableEq

/-- The `clang::EntityKind` values the code distinguishes; every other kind
behaves identically and is lumped into `OtherEntity`. -/
inductive EntityKind : Type where
  | TypedefDecl : EntityKind
  | StructDecl : EntityKind
  | UnionDecl : EntityKind
  | ParmDecl : EntityKind
  | OtherEntity : EntityKind
deriving Repr, DecidableEq

mutual
/-- Embedding of `clang::Type` restricted to the observations `parser.rs` makes:
`get_kind`, `get_display_name`, `get_declaration`, `get_pointee_type`,
`get_canonical_type` (`canon = none` encodes a type that is its own canonical
type), `get_result_type`, `get_argument_types`, `get_fields`. -/
inductive CType : Type where
  | mk (kind : TypeKind) (displayName : String) (decl : Option CEntity)
      (pointee : Option CType) (canon : Option CType)
      (resultType : Option CType) (argTypes : Option (List CType))
      (fields : Option (List CEntity)) : CType

/-- Embedding of `clang::Entity` restricted to the observations `parser.rs`
makes: `get_kind`, `get_name`, `get_type`, `get_typedef_underlying_type`,
`get_children`, and the file path of `get_location` (`locPath = none` encodes
a missing location). -/
inductive CEntity : Type where
  | mk (kind : EntityKind) (name : Option String)
      (typ : Option CType) (underlying : Option CType)
      (children : List CEntity) (locPath : Option String) : CEntity
end

def CType.kind : CType → TypeKind
  | .mk k _ _ _ _ _ _ _ => k

def CType.displayName : CType → String
  | .mk _ d _ _ _ _ _ _ => d

def CType.decl : CType → Option CEntity
  | .mk _ _ d _ _ _ _ _ => d

def CType.pointee : CType → Option CType
  | .mk _ _ _ p _ _ _ _ => p

def CType.canon : CType → Option CType
  | .mk _ _ _ _ c _ _ _ => c

def CType.resultType : CType → Option CType
  | .mk _ _ _ _ _ r _ _ => r

def CType.argTypes : CType → Option (List CType)
  | .mk _ _ _ _ _ _ a _ => a

def CType.fields : CType → Option (List CEntity)
  | .mk _ _ _ _ _ _ _ f => f

def CEntity.kind : CEntity → EntityKind
  | .mk k _ _ _ _ _ => k

def CEntity.name : CEntity → Option String
  | .mk _ n _ _ _ _ => n

def CEntity.typ : CEntity → Option CType
  | .mk _ _ t _ _ _ => t

def CEntity.underlying : CEntity → Option CType
  | .mk _ _ _ u _ _ => u

def CEntity.children : CEntity → List CEntity
  | .mk _ _ _ _ c _ => c

def CEntity.locPath : CEntity → Option String
  | .mk _ _ _ _ _ l => l

/-- `clang::Type::get_canonical_type` never fails; `canon = none` encodes a
type that is already canonical, so the call returns the type itself. -/
def getCanonicalType (t : CType) : CType := t.canon.getD t

/-- `parser.rs` lines 12-25: the `and_check` combinator on `Option`. -/
def andCheck {α : Type} (o : Option α) (f : α → Bool) : Option α :=
  match o with
  | some x => if f x then some x else none
  | none => none

/-- Rust `str::starts_with`, implemented over the character list so that the
kernel can evaluate it. -/
def strStartsWith (s p : String) : Bool := p.data.isPrefixOf s.data

/-- Rust `str::ends_with`, implemented over the character list so that the
kernel can evaluate it. -/
def strEndsWith (s p : String) : Bool := p.data.isSuffixOf s.data

/-- Rust `str::trim_left_matches('_')`: strip every leading underscore. -/
def trimLeftUnderscores (s : String) : String :=
  ⟨s.data.dropWhile (fun c => c == '_')⟩

/-- `parser.rs` `type_name` (lines 27-32): the declaration name, falling back
to the display name, with all leading underscores stripped. -/
def typeName (t : CType) : String :=
  trimLeftUnderscores ((t.decl.bind CEntity.name).getD t.displayName)

/-- `parser.rs` `to_efi_type` (lines 34-68): normalize an AST type node into
the closed `EfiType` tag set, or fail with the code's error string.
The Rust debug payload of the `unsupported type` message is abstracted to the
display name. In the `Typedef` case the code recurses into the canonical type;
`canon = none` (a self-canonical typedef, which clang never produces) is
modelled by the same fallback the code uses when the recursion fails. -/
def toEfiType : CType → Except String EfiType
  | .mk kind disp decl pointee canon res argts flds =>
    match kind with
    | .Record =>
      let name := typeName (.mk kind disp decl pointee canon res argts flds)
      match name with
      | "efi_status" => .ok .Status
      | "efi_uintn" => .ok .UIntN
      | "efi_intn" => .ok .IntN
      | "efi_bool" => .ok .Bool
      | "efi_int8" => .ok .Int8
      | "efi_uint8" => .ok .UInt8
      | "efi_int16" => .ok .Int16
      | "efi_uint16" => .ok .UInt16
      | "efi_int32" => .ok .Int32
      | "efi_uint32" => .ok .UInt32
      | "efi_int64" => .ok .Int64
      | "efi_uint64" => .ok .UInt64
      | "efi_char8" => .ok .Char8
      | "efi_char16" => .ok .Char16
      | _ => .ok (.Id name)
    | .Enum => .ok (.Id (typeName (.mk kind disp decl pointee canon res argts flds)))
    | .Pointer =>
      match pointee with
      | none => .error "pointer has not pointee type"
      | some p =>
        match toEfiType p with
        | .error s => .error s
        | .ok inner => .ok (.Ptr inner)
    | .Typedef =>
      match canon with
      | some c =>
        match toEfiType c with
        | .ok v => .ok v
        | .error _ => .ok (.Id (typeName (.mk kind disp decl pointee canon res argts flds)))
      | none => .ok (.Id (typeName (.mk kind disp decl pointee canon res argts flds)))
    | .FunctionPrototype => .error ("unsupported type " ++ disp)
    | .OtherKind => .error ("unsupported type " ++ disp)

/-- `parser.rs` `to_efi_argdir` (lines 70-78): recognize a direction-marker
parameter by the canonical declaration name. -/
def toEfiArgdir (t : CType) : Option EfiArgDir :=
  ((getCanonicalType t).decl.bind CEntity.name).bind fun name =>
    match name with
    | "efi_arg_in" => some .In
    | "efi_arg_out" => some .Out
    | _ => none

/-- `parser.rs` `to_efi_argopt` (lines 80-86): recognize the optional-marker
parameter by the canonical declaration name. -/
def toEfiArgopt (t : CType) : Bool :=
  (andCheck ((getCanonicalType t).decl.bind CEntity.name)
    (fun name => name == "efi_arg_optional")).isSome

/-- `parser.rs` lines 101-105: `if let Some(last) = efi_args.last_mut()
\x7b last.optional = true; \x7d` — set `optional` on the last argument,
doing nothing on an empty list. -/
def setLastOptional : List EfiArg → List EfiArg
  | [] => []
  | [a] => [{ a with optional := true }]
  | a :: b :: rest => a :: setLastOptional (b :: rest)

/-- `parser.rs` lines 92-114: the argument loop of `to_efi_method`, threading
the sticky direction register `dir` and the accumulated argument vector. -/
def methodArgsLoop : List CType → EfiArgDir → List EfiArg → Except String (List EfiArg)
  | [], _, acc => .ok acc
  | a :: rest, dir, acc =>
    match toEfiArgdir a with
    | some newDir => methodArgsLoop rest newDir acc
    | none =>
      if toEfiArgopt a then
        methodArgsLoop rest dir (setLastOptional acc)
      else
        match toEfiType a with
        | .error s => .error s
        | .ok t => methodArgsLoop rest dir (acc ++ [⟨"", t, dir, false⟩])

/-- `parser.rs` `to_efi_method` (lines 88-121): pass 1 of method extraction,
building the argument list (with empty names) and the return type from the
function-prototype type. The result-type fetch errors first, then the
argument-type fetch; the return type is normalized after the argument loop,
matching the evaluation order of the Rust struct literal. -/
def toEfiMethod (t : CType) : Except String EfiMethod :=
  match t.resultType with
  | none => .error "function prototype without result"
  | some res =>
    match t.argTypes with
    | none => .error "function prototype without args"
    | some args =>
      match methodArgsLoop args .In [] with
      | .error s => .error s
      | .ok efiArgs =>
        match toEfiType res with
        | .error s => .error s
        | .ok rtyp => .ok ⟨"", rtyp, efiArgs⟩

/-- The outcome of a Rust computation that may return `Ok`, return `Err`, or
`panic!` (here: the `expect` in `process_method_args`). `crash` models the
panic, which aborts the process rather than returning a value. -/
inductive PResult (α : Type) : Type where
  | ok : α → PResult α
  | err : String → PResult α
  | crash : String → PResult α
deriving Repr, DecidableEq

def PResult.ofExcept {α : Type} : Except String α → PResult α
  | .ok a => .ok a
  | .error s => .err s

def PResult.isOk {α : Type} : PResult α → Bool
  | .ok _ => true
  | _ => false

def PResult.isErr {α : Type} : PResult α → Bool
  | .err _ => true
  | _ => false

def PResult.isCrash {α : Type} : PResult α → Bool
  | .crash _ => true
  | _ => false

mutual
/-- `parser.rs` `process_method_args` (lines 169-180): pass 2 of method
extraction. The Rust `&mut Iterator<Item = &mut EfiArg>` cursor over the
method's argument vector is modelled as the state pair
`(already consumed and renamed prefix, not yet consumed suffix)`; the final
vector is their concatenation. A named `ParmDecl` consumes the next pending
argument and renames it; `args.next().expect("missing argument name")` on an
exhausted cursor is the `none` outcome (a panic). -/
def processMethodArgs (e : CEntity) (st : List EfiArg × List EfiArg) :
    Option (List EfiArg × List EfiArg) :=
  match e with
  | .mk kind name _ _ children _ =>
    let st1 : Option (List EfiArg × List EfiArg) :=
      if kind = .ParmDecl then
        match name with
        | some n =>
          match st.2 with
          | [] => none
          | a :: rest => some (st.1 ++ [{ a with name := n }], rest)
        | none => some st
      else some st
    match st1 with
    | none => none
    | some st2 => processMethodArgsAll children st2

/-- The `for ref child in entity.get_children()` loop of
`process_method_args`, threading the cursor state. -/
def processMethodArgsAll (es : List CEntity) (st : List EfiArg × List EfiArg) :
    Option (List EfiArg × List EfiArg) :=
  match es with
  | [] => some st
  | e :: rest =>
    match processMethodArgs e st with
    | none => none
    | some st2 => processMethodArgsAll rest st2
end

/-- `parser.rs` lines 137-143: the field loop of `process_typedef`,
collecting `(name, normalized type)` for every member of the aggregate. -/
def typedefFieldsLoop : List CEntity → List EfiField → Except String (List EfiField)
  | [], acc => .ok acc
  | f :: rest, acc =>
    match f.typ with
    | none => .error "field without type"
    | some ftyp =>
      match f.name with
      | none => .error "field without name"
      | some fname =>
        match toEfiType ftyp with
        | .error s => .error s
        | .ok et => typedefFieldsLoop rest (acc ++ [⟨fname, et⟩])

/-- `parser.rs` `process_typedef` (lines 123-167): the record extractor. -/
def processTypedef (e : CEntity) (m : EfiModule) : Except String EfiModule :=
  match e.name with
  | none => .error "typedef without name"
  | some name =>
    if ¬ strStartsWith name "EFI_" then
      .error ("unknown typedef " ++ name)
    else if strEndsWith name "_PROTOCOL" then
      .ok m
    else
      match e.underlying with
      | none => .error "efi typedef without type"
      | some typ =>
        match (getCanonicalType typ).fields with
        | some fields =>
          match typedefFieldsLoop fields [] with
          | .error s => .error s
          | .ok efiFields =>
            match typ.decl.map CEntity.kind with
            | none => .error "record type without declaration"
            | some kind =>
              match kind with
              | .StructDecl =>
                .ok { m with records := m.records ++ [.EfiStruct name efiFields] }
              | .UnionDecl =>
                .ok { m with records := m.records ++ [.EfiUnion name efiFields] }
              | _ => .error ("unsupported type " ++ typ.displayName)
        | none => .ok m

/-- `parser.rs` lines 194-214: the member loop of `process_struct`,
partitioning members into methods and data fields. -/
def structFieldsLoop : List CEntity → EfiProtocol → PResult EfiProtocol
  | [], p => .ok p
  | f :: rest, p =>
    match f.name with
    | none => .err "field lacks name"
    | some fname =>
      match f.typ with
      | none => .err "protocol field lacks type"
      | some ftype =>
        match andCheck (getCanonicalType ftype).pointee
            (fun typ => typ.kind == .FunctionPrototype) with
        | some ptype =>
          match f.typ.bind CType.decl with
          | none => .err "method lacks declaration"
          | some decl =>
            match toEfiMethod ptype with
            | .error s => .err s
            | .ok method =>
              match processMethodArgs decl ([], method.args) with
              | none => .crash "missing argument name"
              | some (done, pending) =>
                structFieldsLoop rest
                  { p with methods := p.methods ++
                      [{ method with name := fname, args := done ++ pending }] }
        | none =>
          match toEfiType ftype with
          | .error s => .err s
          | .ok et =>
            structFieldsLoop rest { p with fields := p.fields ++ [⟨fname, et⟩] }

/-- `parser.rs` `process_struct` (lines 182-220): the protocol extractor. -/
def processStruct (e : CEntity) (m : EfiModule) : PResult EfiModule :=
  match andCheck e.name (fun n => strStartsWith n "_EFI" && strEndsWith n "PROTOCOL") with
  | none => .ok m
  | some name =>
    match e.typ.bind CType.fields with
    | none => .err "protocol definition without fields"
    | some fields =>
      match structFieldsLoop fields ⟨name.drop 1, [], []⟩ with
      | .ok protocol => .ok { m with protocols := m.protocols ++ [protocol] }
      | .err s => .err s
      | .crash s => .crash s

mutual
/-- `parser.rs` `process_tu` (lines 222-238): the depth-first walk. A node
whose location resolves to the target header and whose kind is a typedef or
struct declaration is dispatched and returned from; every other node has its
children visited. -/
def processTu (e : CEntity) (hdr : String) (m : EfiModule) : PResult EfiModule :=
  match e with
  | .mk kind name typ und children locPath =>
    if (andCheck locPath (fun p => p == hdr)).isSome then
      match kind with
      | .TypedefDecl =>
        PResult.ofExcept (processTypedef (.mk kind name typ und children locPath) m)
      | .StructDecl => processStruct (.mk kind name typ und children locPath) m
      | _ => processTuAll children hdr m
    else
      processTuAll children hdr m

/-- The `for ref child in entity.get_children()` loop of `process_tu`:
`try!` short-circuits on the first failing child. -/
def processTuAll (es : List CEntity) (hdr : String) (m : EfiModule) : PResult EfiModule :=
  match es with
  | [] => .ok m
  | e :: rest =>
    match processTu e hdr m with
    | .ok m2 => processTuAll rest hdr m2
    | .err s => .err s
    | .crash s => .crash s
end

/-- `parser.rs` `parse` (lines 255-267) without its I/O collaborators (the
auxiliary-header synthesis and the clang invocation are out of scope): the
module starts empty and is assembled by one `process_tu` walk from the root;
on failure no module is produced. -/
def parseModel (root : CEntity) (hdr : String) : PResult EfiModule :=
  processTu root hdr ⟨[], []⟩

/-! ## Derived observations used to state the properties -/

mutual
/-- The names consumed by pass 2: one per `ParmDecl` node that has a name,
in the preorder in which `process_method_args` visits the subtree. -/
def pmaNames : CEntity → List String
  | .mk kind name _ _ children _ =>
    (if kind = .ParmDecl then
      match name with
      | some n => [n]
      | none => []
    else []) ++ pmaNamesAll children

def pmaNamesAll : List CEntity → List String
  | [] => []
  | e :: rest => pmaNames e ++ pmaNamesAll rest
end

/-- The renaming pass 2 applies when it consumes one pending argument. -/
def renameArg (n : String) (a : EfiArg) : EfiArg := { a with name := n }

/-- The test `process_struct` applies to decide whether a member is a method:
its type's canonical type is a pointer whose pointee is a function prototype. -/
def isMethodField (f : CEntity) : Bool :=
  match f.typ with
  | some ftype =>
    (andCheck (getCanonicalType ftype).pointee
      (fun t => t.kind == .FunctionPrototype)).isSome
  | none => false

/-- A member's name, defaulting to the empty string (only used on members a
successful extraction already forces to be named). -/
def fieldNameD (f : CEntity) : String := f.name.getD ""

/-- A parameter type that is neither a direction marker nor the optional
marker, i.e. one that contributes a real argument. -/
def isRealParam (a : CType) : Bool :=
  (toEfiArgdir a).isNone && ! toEfiArgopt a

/-- A primitive tag of the closed alias set (neither `Id` nor `Ptr`). -/
def isPrimTag : EfiType → Bool
  | .Id _ => false
  | .Ptr _ => false
  | _ => true

/-- `N` nested levels of pointer type around a base type node. -/
def ptrChain : Nat → CType → CType
  | 0, t => t
  | n + 1, t => .mk .Pointer "" none (some (ptrChain n t)) none none none none

/-- `N` nested `Ptr` wrappers around a base tag. -/
def ptrTag : Nat → EfiType → EfiType
  | 0, t => t
  | n + 1, t => .Ptr (ptrTag n t)

/-! ## Concrete fixtures (used by witnesses and counterexamples) -/

/-- A record type node carrying only a display name (as the wrapper header's
marker records do). -/
def recType (n : String) : CType := .mk .Record n none none none none none none

/-- A marker type whose canonical declaration has name `n`, as
`to_efi_argdir` / `to_efi_argopt` observe it. -/
def markerType (n : String) : CType :=
  .mk .Record n (some (.mk .StructDecl (some n) none none [] none)) none none none none none

/-- A function-prototype type with the given result and argument types. -/
def fnType (res : CType) (args : List CType) : CType :=
  .mk .FunctionPrototype "" none none none (some res) (some args) none

/-- The type of a function-pointer member: a pointer to the prototype whose
declaration is the entity pass 2 walks. -/
def methodFieldType (proto : CType) (d : CEntity) : CType :=
  .mk .Pointer "" (some d) (some proto) none none none none

/-- A formal-parameter declaration node. -/
def parmDecl (n : Option String) : CEntity := .mk .ParmDecl n none none [] none

/-- A member entity with the given name and type. -/
def fieldEnt (n : Option String) (t : Option CType) : CEntity :=
  .mk .OtherEntity n t none [] none

/-- A declaration subtree holding two named formal parameters. -/
def declTwoParms : CEntity :=
  .mk .OtherEntity none none none [parmDecl (some "a"), parmDecl (some "b")] none

/-- A declaration subtree holding one named formal parameter. -/
def declOneParm : CEntity :=
  .mk .OtherEntity none none none [parmDecl (some "a")] none

/-- A one-argument function prototype `efi_status (efi_uintn)`. -/
def protoOneArg : CType := fnType (recType "efi_status") [recType "efi_uintn"]

/-- A struct declaration with a protocol-convention name whose single method
member's declaration subtree carries two named parameters while its prototype
carries one argument: pass 2 finds more parameter declarations than pass-1
argument slots. -/
def mismatchStruct : CEntity :=
  .mk .StructDecl (some "_EFI_X_PROTOCOL")
    (some (.mk .Record "" none none none none none
      (some [fieldEnt (some "Do") (some (methodFieldType protoOneArg declTwoParms))])))
    none [] (some "efi.h")

/-- The members of the sample protocol struct: a method `Do` and a data
member `Value`. -/
def sampleStructMembers : List CEntity :=
  [fieldEnt (some "Do") (some (methodFieldType protoOneArg declOneParm)),
   fieldEnt (some "Value") (some (recType "efi_uintn"))]

/-- A well-formed protocol struct: one method `Do` and one data member
`Value`. -/
def sampleStruct : CEntity :=
  .mk .StructDecl (some "_EFI_SAMPLE_PROTOCOL")
    (some (.mk .Record "" none none none none none (some sampleStructMembers)))
    none [] (some "efi.h")

/-- The protocol the sample struct extracts to. -/
def sampleProtocol : EfiProtocol :=
  ⟨"EFI_SAMPLE_PROTOCOL",
    [⟨"Do", .Status, [⟨"a", .UIntN, .In, false⟩]⟩],
    [⟨"Value", .UIntN⟩]⟩

/-- The module the sample struct extracts to. -/
def sampleModule : EfiModule := ⟨[sampleProtocol], []⟩

/-- The members of the malformed protocol struct: a well-formed data member
followed by a member lacking a name. -/
def unnamedMemberStructMembers : List CEntity :=
  [fieldEnt (some "Value") (some (recType "efi_uintn")),
   fieldEnt none (some (recType "efi_uintn"))]

/-- A protocol struct whose second member lacks a name. -/
def unnamedMemberStruct : CEntity :=
  .mk .StructDecl (some "_EFI_BAD_PROTOCOL")
    (some (.mk .Record "" none none none none none
      (some unnamedMemberStructMembers)))
    none [] (some "efi.h")

/-- A struct whose name does not match the protocol convention and whose only
member is malformed (it lacks both name and type). -/
def plainStruct : CEntity :=
  .mk .StructDecl (some "NOT_A_PROTOCOL")
    (some (.mk .Record "" none none none none none (some [fieldEnt none none])))
    none [] (some "efi.h")

/-- A type node whose normalization fails (`unsupported type`). -/
def badScalar : CType := .mk .OtherKind "int" none none none none none none

/-- The display name of the typedef fixture below. -/
def tdOverBadName : String := "_EFI_EVENT"

/-- A typedef type node whose canonical type fails to normalize. -/
def tdOverBad : CType :=
  .mk .Typedef tdOverBadName
    (some (.mk .TypedefDecl (some tdOverBadName) none none [] none))
    none (some badScalar) none none none

/-- A pointer type node lacking a pointee. -/
def ptrNoPointee : CType := .mk .Pointer "p" none none none none none none

/-- An aggregate (struct) type with a single `efi_uintn` member `a`. -/
def aggType : CType :=
  .mk .Record "agg" (some (.mk .StructDecl (some "s") none none [] none))
    none none none none (some [fieldEnt (some "a") (some (recType "efi_uintn"))])

/-- The qualifying typedef `EFI_SAMPLE` over the aggregate. -/
def tdEnt : CEntity :=
  .mk .TypedefDecl (some "EFI_SAMPLE") none (some aggType) [] (some "efi.h")

/-- A typedef whose name lacks the domain prefix. -/
def tdNoPrefixEnt : CEntity :=
  .mk .TypedefDecl (some "XYZ") none (some aggType) [] (some "efi.h")

/-- A qualifying typedef whose name carries the protocol suffix. -/
def tdProtoEnt : CEntity :=
  .mk .TypedefDecl (some "EFI_X_PROTOCOL") none (some aggType) [] (some "efi.h")

/-- A qualifying typedef over a scalar (no aggregate field list). -/
def tdScalarEnt : CEntity :=
  .mk .TypedefDecl (some "EFI_SCALAR") none (some (recType "efi_uintn")) [] (some "efi.h")

/-- The members of a protocol struct whose only data member's type is
present but unresolvable. -/
def badFieldStructMembers : List CEntity := [fieldEnt (some "V") (some badScalar)]

/-- A protocol struct whose only member has a present but unresolvable
type. -/
def badFieldStruct : CEntity :=
  .mk .StructDecl (some "_EFI_UGLY_PROTOCOL")
    (some (.mk .Record "" none none none none none (some badFieldStructMembers)))
    none [] (some "efi.h")

/-- The members of the malformed aggregate behind `tdBadEnt`: one member
lacking a name. -/
def badAggMembers : List CEntity := [fieldEnt none (some (recType "efi_uintn"))]

/-- An aggregate type with an unnamed member. -/
def badAggType : CType :=
  .mk .Record "agg2" (some (.mk .StructDecl (some "s2") none none [] none))
    none none none none (some badAggMembers)

/-- A qualifying typedef over the malformed aggregate. -/
def tdBadEnt : CEntity :=
  .mk .TypedefDecl (some "EFI_BADREC") none (some badAggType) [] (some "efi.h")

/-! ## Helper lemmas -/

theorem toEfiType_ptrChain (base : CType) (tag : EfiType)
    (h : toEfiType base = .ok tag) :
    ∀ n : Nat, toEfiType (ptrChain n base) = .ok (ptrTag n tag) := by
  intro n
  induction n with
  | zero => simpa [ptrChain, ptrTag] using h
  | succ k ih => simp [ptrChain, ptrTag, toEfiType, ih]

/-! ## C4: typedef normalization never fails -/

/-- C4: normalization of a typedef-kind type node always succeeds; when the
canonical type's normalization fails, the result is `Id` of the typedef's
name with leading underscores stripped. -/
theorem C4_typedef_never_fails (t c : CType) (s : String)
    (ht : t.kind = .Typedef) (hc : t.canon = some c)
    (hfail : toEfiType c = .error s) :
    (∀ u : CType, u.kind = .Typedef → ∃ v, toEfiType u = .ok v) ∧
    toEfiType t = .ok (.Id (typeName t)) := by
  constructor
  · intro u hu
    cases u with
    | mk kind disp decl pointee canon res argts flds =>
      simp only [CType.kind] at hu
      subst hu
      cases canon with
      | none =>
        simp only [toEfiType]
        exact ⟨_, rfl⟩
      | some c2 =>
        cases hc2 : toEfiType c2 with
        | ok v =>
          simp only [toEfiType]
          rw [hc2]
          exact ⟨v, rfl⟩
        | error s2 =>
          simp only [toEfiType]
          rw [hc2]
          exact ⟨_, rfl⟩
  · cases t with
    | mk kind disp decl pointee canon res argts flds =>
      simp only [CType.kind] at ht
      simp only [CType.canon] at hc
      subst ht
      subst hc
      simp [toEfiType, hfail]

/-- C4 witness: a typedef over an unnormalizable scalar still normalizes,
to `Id` of its stripped name. -/
theorem C4_witness :
    (∃ v, toEfiType tdOverBad = .ok v) ∧
    toEfiType tdOverBad = .ok (.Id (typeName tdOverBad)) :=
  ⟨(C4_typedef_never_fails tdOverBad badScalar ("unsupported type " ++ "int")
      rfl rfl rfl).1 tdOverBad rfl,
   (C4_typedef_never_fails tdOverBad badScalar ("unsupported type " ++ "int")
      rfl rfl rfl).2⟩

/-! ## C8: pointer normalization is depth-preserving -/

/-- C8: `n` levels of pointer around a known primitive-alias record normalize
to `n` nested `Ptr` wrappers around its tag, and a pointer without a pointee
type fails with the missing-node error. -/
theorem C8_pointer_depth (n : Nat) (base : CType) (tag : EfiType) (t : CType)
    (hn : 1 ≤ n) (hk : base.kind = .Record) (hprim : isPrimTag tag = true)
    (h : toEfiType base = .ok tag)
    (ht : t.kind = .Pointer) (hp : t.pointee = none) :
    toEfiType (ptrChain n base) = .ok (ptrTag n tag) ∧
    toEfiType t = .error "pointer has not pointee type" := by
  refine ⟨toEfiType_ptrChain base tag h n, ?_⟩
  cases t with
  | mk kind disp decl pointee canon res argts flds =>
    simp only [CType.kind] at ht
    simp only [CType.pointee] at hp
    subst ht
    subst hp
    simp [toEfiType]

/-- C8 witness: two levels of pointer to `efi_uintn` give `Ptr (Ptr UIntN)`,
and the concrete pointee-less pointer fails. -/
theorem C8_witness :
    toEfiType (ptrChain 2 (recType "efi_uintn")) = .ok (ptrTag 2 .UIntN) ∧
    toEfiType ptrNoPointee = .error "pointer has not pointee type" :=
  C8_pointer_depth 2 (recType "efi_uintn") .UIntN ptrNoPointee
    (by decide) rfl rfl rfl rfl rfl

/-! ## C10: a non-matching struct declaration is a no-op -/

/-- C10: a struct declaration whose name is absent or fails the protocol
naming convention leaves the module untouched and returns success, with no
condition on its members. -/
theorem C10_nonmatching_struct_noop (e : CEntity) (m : EfiModule)
    (h : andCheck e.name
      (fun n => strStartsWith n "_EFI" && strEndsWith n "PROTOCOL") = none) :
    processStruct e m = .ok m := by
  simp [processStruct, h]

/-- C10 witness: a non-matching struct with a member lacking both name and
type is still a successful no-op. -/
theorem C10_witness : processStruct plainStruct ⟨[], []⟩ = .ok ⟨[], []⟩ :=
  C10_nonmatching_struct_noop plainStruct ⟨[], []⟩ (by decide)

/-! ## Helper lemmas for the argument loop -/

/-- The pass-1 content of an argument that pass 2 and the optional marker do
not touch: name, type and direction. -/
def argCore (a : EfiArg) : String × EfiType × EfiArgDir := (a.name, a.typ, a.dir)

theorem methodArgsLoop_dirStep (a : CType) (rest : List CType) (dir d : EfiArgDir)
    (acc : List EfiArg) (h : toEfiArgdir a = some d) :
    methodArgsLoop (a :: rest) dir acc = methodArgsLoop rest d acc := by
  simp [methodArgsLoop, h]

theorem methodArgsLoop_optStep (a : CType) (rest : List CType) (dir : EfiArgDir)
    (acc : List EfiArg) (h1 : toEfiArgdir a = none) (h2 : toEfiArgopt a = true) :
    methodArgsLoop (a :: rest) dir acc = methodArgsLoop rest dir (setLastOptional acc) := by
  simp [methodArgsLoop, h1, h2]

theorem methodArgsLoop_realStep (a : CType) (rest : List CType) (dir : EfiArgDir)
    (acc : List EfiArg) (t : EfiType)
    (h1 : toEfiArgdir a = none) (h2 : toEfiArgopt a = false) (h3 : toEfiType a = .ok t) :
    methodArgsLoop (a :: rest) dir acc =
      methodArgsLoop rest dir (acc ++ [⟨"", t, dir, false⟩]) := by
  simp [methodArgsLoop, h1, h2, h3]

theorem argCore_setLastOptional :
    ∀ acc : List EfiArg, (setLastOptional acc).map argCore = acc.map argCore
  | [] => rfl
  | [_] => rfl
  | a :: b :: rest => by
    simp only [setLastOptional, List.map]
    rw [argCore_setLastOptional (b :: rest)]
    simp

theorem setLastOptional_length (acc : List EfiArg) :
    (setLastOptional acc).length = acc.length := by
  have h := congrArg List.length (argCore_setLastOptional acc)
  simpa using h

theorem setLastOptional_append :
    ∀ (acc : List EfiArg) (x : EfiArg),
      setLastOptional (acc ++ [x]) = acc ++ [{ x with optional := true }]
  | [], _ => rfl
  | [_], _ => rfl
  | a :: b :: rest, x => by
    have ih := setLastOptional_append (b :: rest) x
    show a :: setLastOptional ((b :: rest) ++ [x]) =
      a :: ((b :: rest) ++ [{ x with optional := true }])
    rw [ih]

theorem methodArgsLoop_core :
    ∀ (args : List CType) (dir : EfiArgDir) (acc l : List EfiArg),
      methodArgsLoop args dir acc = .ok l →
      ∃ ext, l.map argCore = acc.map argCore ++ ext
  | [], _, acc, l, h => by
    simp only [methodArgsLoop] at h
    cases h
    exact ⟨[], by simp⟩
  | a :: rest, dir, acc, l, h => by
    cases hd : toEfiArgdir a with
    | some d =>
      rw [methodArgsLoop_dirStep a rest dir d acc hd] at h
      exact methodArgsLoop_core rest d acc l h
    | none =>
      cases ho : toEfiArgopt a with
      | true =>
        rw [methodArgsLoop_optStep a rest dir acc hd ho] at h
        obtain ⟨ext, he⟩ := methodArgsLoop_core rest dir _ l h
        exact ⟨ext, by rw [he, argCore_setLastOptional]⟩
      | false =>
        cases ht : toEfiType a with
        | error s => simp [methodArgsLoop, hd, ho, ht] at h
        | ok t =>
          rw [methodArgsLoop_realStep a rest dir acc t hd ho ht] at h
          obtain ⟨ext, he⟩ := methodArgsLoop_core rest dir _ l h
          refine ⟨argCore ⟨"", t, dir, false⟩ :: ext, ?_⟩
          simpa [List.append_assoc] using he

theorem methodArgsLoop_count :
    ∀ (args : List CType) (dir : EfiArgDir) (acc l : List EfiArg),
      methodArgsLoop args dir acc = .ok l →
      l.length = acc.length + (args.filter isRealParam).length
  | [], _, acc, l, h => by
    simp only [methodArgsLoop] at h
    cases h
    simp
  | a :: rest, dir, acc, l, h => by
    cases hd : toEfiArgdir a with
    | some d =>
      rw [methodArgsLoop_dirStep a rest dir d acc hd] at h
      have := methodArgsLoop_count rest d acc l h
      simpa [List.filter_cons, isRealParam, hd] using this
    | none =>
      cases ho : toEfiArgopt a with
      | true =>
        rw [methodArgsLoop_optStep a rest dir acc hd ho] at h
        have := methodArgsLoop_count rest dir _ l h
        rw [setLastOptional_length] at this
        simpa [List.filter_cons, isRealParam, hd, ho] using this
      | false =>
        cases ht : toEfiType a with
        | error s => simp [methodArgsLoop, hd, ho, ht] at h
        | ok t =>
          rw [methodArgsLoop_realStep a rest dir acc t hd ho ht] at h
          have := methodArgsLoop_count rest dir _ l h
          simp only [List.length_append, List.length_cons, List.length_nil] at this
          simp [List.filter_cons, isRealParam, hd, ho, this]
          omega

/-! ## C2: the direction register starts at In and is sticky -/

/-- C2: direction markers update the sticky register, produce no entry, and
apply to every following real argument; `[out, X, Y, in, Z]` yields exactly
`[(X, Out), (Y, Out), (Z, In)]`, and with no leading marker the first real
argument is extracted with direction `In`. -/
theorem C2_direction_sticky
    (res om im X Y Z : CType) (tr tx ty tz : EfiType)
    (hom : toEfiArgdir om = some .Out) (him : toEfiArgdir im = some .In)
    (hXd : toEfiArgdir X = none) (hXo : toEfiArgopt X = false)
    (hXt : toEfiType X = .ok tx)
    (hYd : toEfiArgdir Y = none) (hYo : toEfiArgopt Y = false)
    (hYt : toEfiType Y = .ok ty)
    (hZd : toEfiArgdir Z = none) (hZo : toEfiArgopt Z = false)
    (hZt : toEfiType Z = .ok tz)
    (hres : toEfiType res = .ok tr)
    (restArgs : List CType) (l : List EfiArg)
    (hfirst : methodArgsLoop (X :: restArgs) .In [] = .ok l) :
    toEfiMethod (fnType res [om, X, Y, im, Z]) =
      .ok ⟨"", tr, [⟨"", tx, .Out, false⟩, ⟨"", ty, .Out, false⟩, ⟨"", tz, .In, false⟩]⟩ ∧
    (l.map argCore).head? = some ("", tx, .In) := by
  constructor
  · rw [toEfiMethod]
    simp only [fnType, CType.resultType, CType.argTypes]
    rw [methodArgsLoop_dirStep om _ _ _ _ hom,
      methodArgsLoop_realStep X _ _ _ tx hXd hXo hXt,
      methodArgsLoop_realStep Y _ _ _ ty hYd hYo hYt,
      methodArgsLoop_dirStep im _ _ _ _ him,
      methodArgsLoop_realStep Z _ _ _ tz hZd hZo hZt]
    simp [methodArgsLoop, hres]
  · rw [methodArgsLoop_realStep X restArgs .In [] tx hXd hXo hXt] at hfirst
    obtain ⟨ext, he⟩ := methodArgsLoop_core restArgs .In _ l hfirst
    rw [he]
    simp [argCore]

/-- C2 witness: concrete marker and primitive-alias types realize the
`[out, X, Y, in, Z]` sequence and the marker-free first argument. -/
theorem C2_witness :
    toEfiMethod (fnType (recType "efi_status")
      [markerType "efi_arg_out", recType "efi_uintn", recType "efi_bool",
       markerType "efi_arg_in", recType "efi_char8"]) =
    .ok ⟨"", .Status, [⟨"", .UIntN, .Out, false⟩, ⟨"", .Bool, .Out, false⟩,
      ⟨"", .Char8, .In, false⟩]⟩ ∧
    (([⟨"", EfiType.UIntN, EfiArgDir.In, false⟩] : List EfiArg).map argCore).head? =
      some ("", .UIntN, .In) :=
  C2_direction_sticky (recType "efi_status") (markerType "efi_arg_out")
    (markerType "efi_arg_in") (recType "efi_uintn") (recType "efi_bool")
    (recType "efi_char8") .Status .UIntN .Bool .Char8
    rfl rfl rfl rfl rfl rfl rfl rfl rfl rfl rfl rfl
    [] [⟨"", .UIntN, .In, false⟩] rfl

/-! ## C3: the optional marker -/

/-- C3: an optional marker flips `optional` on the most recently appended
real argument and adds no entry; on an empty argument list it is silently
dropped; the final argument count is the number of real (non-marker)
parameters. -/
theorem C3_optional_marker
    (acc0 : List EfiArg) (x : EfiArg)
    (a : CType) (rest : List CType) (dir : EfiArgDir) (acc : List EfiArg)
    (h1 : toEfiArgdir a = none) (h2 : toEfiArgopt a = true)
    (args : List CType) (d2 : EfiArgDir) (l : List EfiArg)
    (hok : methodArgsLoop args d2 [] = .ok l) :
    setLastOptional (acc0 ++ [x]) = acc0 ++ [{ x with optional := true }] ∧
    methodArgsLoop (a :: rest) dir acc = methodArgsLoop rest dir (setLastOptional acc) ∧
    methodArgsLoop (a :: rest) dir [] = methodArgsLoop rest dir [] ∧
    l.length = (args.filter isRealParam).length := by
  refine ⟨setLastOptional_append acc0 x,
    methodArgsLoop_optStep a rest dir acc h1 h2, ?_, ?_⟩
  · have h := methodArgsLoop_optStep a rest dir [] h1 h2
    simpa [setLastOptional] using h
  · have h := methodArgsLoop_count args d2 [] l hok
    simpa using h

/-- C3 witness: a concrete optional marker after one real argument, and the
count equation on a mixed parameter list. -/
theorem C3_witness :
    setLastOptional ([] ++ [⟨"", EfiType.UIntN, EfiArgDir.In, false⟩]) =
      [] ++ [⟨"", EfiType.UIntN, EfiArgDir.In, true⟩] ∧
    methodArgsLoop (markerType "efi_arg_optional" :: [recType "efi_bool"]) .In
        [⟨"", .UIntN, .In, false⟩] =
      methodArgsLoop [recType "efi_bool"] .In
        (setLastOptional [⟨"", .UIntN, .In, false⟩]) ∧
    methodArgsLoop (markerType "efi_arg_optional" :: [recType "efi_bool"]) .In [] =
      methodArgsLoop [recType "efi_bool"] .In [] ∧
    ([⟨"", EfiType.UIntN, EfiArgDir.In, true⟩] : List EfiArg).length =
      ([recType "efi_uintn", markerType "efi_arg_optional"].filter isRealParam).length :=
  C3_optional_marker [] ⟨"", .UIntN, .In, false⟩ (markerType "efi_arg_optional")
    [recType "efi_bool"] .In [⟨"", .UIntN, .In, false⟩] rfl rfl
    [recType "efi_uintn", markerType "efi_arg_optional"] .In
    [⟨"", .UIntN, .In, true⟩] rfl

/-! ## Helper lemmas for pass 2 (name recovery) -/

theorem zipWith_append_left {α β γ : Type} (f : α → β → γ) :
    ∀ (l1 l2 : List α) (p : List β), l1.length ≤ p.length →
      List.zipWith f (l1 ++ l2) p =
        List.zipWith f l1 p ++ List.zipWith f l2 (p.drop l1.length)
  | [], _, p, _ => by simp
  | _ :: _, _, [], h => by simp at h
  | a :: l1, l2, b :: p, h => by
    show f a b :: List.zipWith f (l1 ++ l2) p =
      f a b :: (List.zipWith f l1 p ++ List.zipWith f l2 (p.drop l1.length))
    rw [zipWith_append_left f l1 l2 p (by simpa using h)]

mutual
/-- The full characterization of pass 2: visiting the subtree consumes the
named-`ParmDecl` names in preorder, renaming one pending argument each; it
panics (`none`) exactly when more names exist than pending arguments, and
otherwise leaves the unconsumed suffix untouched. -/
theorem pma_spec :
    ∀ (e : CEntity) (done pending : List EfiArg),
      processMethodArgs e (done, pending) =
        if (pmaNames e).length ≤ pending.length then
          some (done ++ List.zipWith renameArg (pmaNames e) pending,
            pending.drop (pmaNames e).length)
        else none
  | .mk kind name t u children loc, done, pending => by
    by_cases hk : kind = EntityKind.ParmDecl
    · subst hk
      cases name with
      | none =>
        have hL : processMethodArgs (CEntity.mk .ParmDecl none t u children loc)
            (done, pending) = processMethodArgsAll children (done, pending) := rfl
        have hN : pmaNames (CEntity.mk .ParmDecl none t u children loc) =
            pmaNamesAll children := rfl
        rw [hL, hN, pmaAll_spec children done pending]
      | some n =>
        cases pending with
        | nil =>
          have hL : processMethodArgs (CEntity.mk .ParmDecl (some n) t u children loc)
              (done, []) = none := rfl
          have hN : pmaNames (CEntity.mk .ParmDecl (some n) t u children loc) =
              n :: pmaNamesAll children := rfl
          rw [hL, hN, if_neg (by simp)]
        | cons a p =>
          have hL : processMethodArgs (CEntity.mk .ParmDecl (some n) t u children loc)
              (done, a :: p) =
              processMethodArgsAll children (done ++ [renameArg n a], p) := rfl
          have hN : pmaNames (CEntity.mk .ParmDecl (some n) t u children loc) =
              n :: pmaNamesAll children := rfl
          rw [hL, hN, pmaAll_spec children (done ++ [renameArg n a]) p]
          by_cases h2 : (pmaNamesAll children).length ≤ p.length
          · rw [if_pos h2, if_pos (by simpa using h2)]
            simp [List.append_assoc]
          · rw [if_neg h2, if_neg (by simpa using h2)]
    · have hL : processMethodArgs (CEntity.mk kind name t u children loc)
          (done, pending) = processMethodArgsAll children (done, pending) := by
        show (match (if kind = EntityKind.ParmDecl then
            match name with
            | some n2 =>
              match (done, pending).2 with
              | [] => none
              | a :: rest => some ((done, pending).1 ++ [{ a with name := n2 }], rest)
            | none => some (done, pending)
          else some (done, pending)) with
          | none => none
          | some st2 => processMethodArgsAll children st2) =
          processMethodArgsAll children (done, pending)
        rw [if_neg hk]
      have hN : pmaNames (CEntity.mk kind name t u children loc) =
          pmaNamesAll children := by
        show (if kind = EntityKind.ParmDecl then
            match name with
            | some n2 => [n2]
            | none => []
          else []) ++ pmaNamesAll children = pmaNamesAll children
        rw [if_neg hk]
        simp
      rw [hL, hN, pmaAll_spec children done pending]

theorem pmaAll_spec :
    ∀ (es : List CEntity) (done pending : List EfiArg),
      processMethodArgsAll es (done, pending) =
        if (pmaNamesAll es).length ≤ pending.length then
          some (done ++ List.zipWith renameArg (pmaNamesAll es) pending,
            pending.drop (pmaNamesAll es).length)
        else none
  | [], done, pending => by
    simp [processMethodArgsAll, pmaNamesAll]
  | e :: rest, done, pending => by
    have hM : processMethodArgsAll (e :: rest) (done, pending) =
        match processMethodArgs e (done, pending) with
        | none => none
        | some st2 => processMethodArgsAll rest st2 := rfl
    have hN : pmaNamesAll (e :: rest) = pmaNames e ++ pmaNamesAll rest := rfl
    rw [hM, hN, pma_spec e done pending]
    by_cases h1 : (pmaNames e).length ≤ pending.length
    · rw [if_pos h1]
      show processMethodArgsAll rest
          (done ++ List.zipWith renameArg (pmaNames e) pending,
            pending.drop (pmaNames e).length) = _
      rw [pmaAll_spec rest (done ++ List.zipWith renameArg (pmaNames e) pending)
        (pending.drop (pmaNames e).length)]
      have hdl : (pending.drop (pmaNames e).length).length =
          pending.length - (pmaNames e).length := by simp
      by_cases h2 : (pmaNamesAll rest).length ≤ pending.length - (pmaNames e).length
      · rw [if_pos (by rw [hdl]; exact h2)]
        rw [if_pos (by rw [List.length_append]; omega)]
        have hz := zipWith_append_left renameArg (pmaNames e) (pmaNamesAll rest)
          pending h1
        have hA : (done ++ List.zipWith renameArg (pmaNames e) pending) ++
            List.zipWith renameArg (pmaNamesAll rest)
              (pending.drop (pmaNames e).length) =
            done ++ List.zipWith renameArg (pmaNames e ++ pmaNamesAll rest) pending := by
          rw [hz, List.append_assoc]
        have hB : (pending.drop (pmaNames e).length).drop (pmaNamesAll rest).length =
            pending.drop (pmaNames e ++ pmaNamesAll rest).length := by
          rw [List.drop_drop, List.length_append]
        rw [hA, hB]
      · rw [if_neg (by rw [hdl]; exact h2)]
        rw [if_neg (by rw [List.length_append]; omega)]
    · rw [if_neg h1]
      rw [if_neg (by rw [List.length_append]; omega)]
end

/-! ## C9: pass 2 tolerates unnamed parameters and undercounts -/

/-- C9: an unnamed formal-parameter declaration consumes no argument slot,
and when the declaration subtree carries no more parameter names than pending
arguments, pass 2 succeeds, renaming only a prefix and returning the
unconsumed suffix verbatim (so arguments beyond the names keep their empty
pass-1 names) — the undercount direction is never reported as an error. -/
theorem C9_undercount_tolerated
    (t u : Option CType) (children : List CEntity) (loc : Option String)
    (st : List EfiArg × List EfiArg)
    (d : CEntity) (done pending : List EfiArg)
    (hle : (pmaNames d).length ≤ pending.length) :
    processMethodArgs (.mk .ParmDecl none t u children loc) st =
      processMethodArgsAll children st ∧
    processMethodArgs d (done, pending) =
      some (done ++ List.zipWith renameArg (pmaNames d) pending,
        pending.drop (pmaNames d).length) := by
  constructor
  · rfl
  · rw [pma_spec d done pending, if_pos hle]

/-- C9 witness: one named parameter against two arguments — pass 2 succeeds,
names the first argument and leaves the second with its empty name. -/
theorem C9_witness :
    processMethodArgs (CEntity.mk .ParmDecl none none none [] none)
      ([], [⟨"", EfiType.UIntN, EfiArgDir.In, false⟩]) =
      processMethodArgsAll [] ([], [⟨"", EfiType.UIntN, EfiArgDir.In, false⟩]) ∧
    processMethodArgs declOneParm
      ([], [⟨"", EfiType.UIntN, EfiArgDir.In, false⟩,
        ⟨"", EfiType.Bool, EfiArgDir.In, false⟩]) =
      some ([⟨"a", EfiType.UIntN, EfiArgDir.In, false⟩],
        [⟨"", EfiType.Bool, EfiArgDir.In, false⟩]) := by
  have h := C9_undercount_tolerated none none [] none
    ([], [⟨"", EfiType.UIntN, EfiArgDir.In, false⟩]) declOneParm []
    [⟨"", EfiType.UIntN, EfiArgDir.In, false⟩, ⟨"", EfiType.Bool, EfiArgDir.In, false⟩]
    (by decide)
  exact h

/-! ## C1: the arity overcount outcome (corrected: a panic, not an error) -/

/-- C1 counterexample: on a struct whose method declaration carries two named
parameters against one pass-1 argument, extraction does not return a failure
value at all — it panics (`expect("missing argument name")`). -/
theorem C1_counterexample :
    processStruct mismatchStruct ⟨[], []⟩ = .crash "missing argument name" ∧
    (processStruct mismatchStruct ⟨[], []⟩).isErr = false ∧
    (processStruct mismatchStruct ⟨[], []⟩).isOk = false :=
  ⟨rfl, rfl, rfl⟩

theorem structFieldsLoop_crash_head (f : CEntity) (rest : List CEntity)
    (p : EfiProtocol) (fname : String) (ftype ptype : CType) (dd : CEntity)
    (method : EfiMethod)
    (hfn : f.name = some fname) (hft : f.typ = some ftype)
    (hm : andCheck (getCanonicalType ftype).pointee
      (fun t => t.kind == .FunctionPrototype) = some ptype)
    (hd : ftype.decl = some dd)
    (hmeth : toEfiMethod ptype = .ok method)
    (hargs : processMethodArgs dd ([], method.args) = none) :
    structFieldsLoop (f :: rest) p = .crash "missing argument name" := by
  simp only [structFieldsLoop, hfn, hft, Option.some_bind, hm, hd, hmeth, hargs]

/-- C1 amended: whenever pass 2 finds more named parameter declarations than
remaining argument slots it yields the panic outcome, and a protocol struct
whose first member is such a method makes the whole extraction crash with
`missing argument name` — a process abort, not a returned
`StructuralMismatch` error, with no module value produced at all. -/
theorem C1_amended
    (d : CEntity) (done pending : List EfiArg)
    (hover : pending.length < (pmaNames d).length)
    (e : CEntity) (m : EfiModule) (nm fname : String)
    (f : CEntity) (rest : List CEntity) (ftype ptype : CType) (dd : CEntity)
    (method : EfiMethod)
    (hn : e.name = some nm)
    (hq : (strStartsWith nm "_EFI" && strEndsWith nm "PROTOCOL") = true)
    (hf : e.typ.bind CType.fields = some (f :: rest))
    (hfn : f.name = some fname) (hft : f.typ = some ftype)
    (hm : andCheck (getCanonicalType ftype).pointee
      (fun t => t.kind == .FunctionPrototype) = some ptype)
    (hd : ftype.decl = some dd)
    (hmeth : toEfiMethod ptype = .ok method)
    (hover2 : method.args.length < (pmaNames dd).length) :
    processMethodArgs d (done, pending) = none ∧
    processStruct e m = .crash "missing argument name" := by
  constructor
  · rw [pma_spec d done pending, if_neg (by omega)]
  · have hargs : processMethodArgs dd ([], method.args) = none := by
      rw [pma_spec dd [] method.args, if_neg (by omega)]
    have hcrash := structFieldsLoop_crash_head f rest
      ⟨nm.drop 1, [], []⟩ fname ftype ptype dd method hfn hft hm hd hmeth hargs
    have hac : andCheck e.name
        (fun n => strStartsWith n "_EFI" && strEndsWith n "PROTOCOL") = some nm := by
      rw [hn]
      simp [andCheck, hq]
    simp only [processStruct, hac, hf, hcrash]

/-- C1 witness: the concrete mismatching struct realizes both the pass-2
panic and the whole-extraction crash. -/
theorem C1_witness :
    processMethodArgs declTwoParms ([], [⟨"", EfiType.UIntN, EfiArgDir.In, false⟩]) =
      none ∧
    processStruct mismatchStruct ⟨[], []⟩ = .crash "missing argument name" :=
  C1_amended declTwoParms [] [⟨"", EfiType.UIntN, EfiArgDir.In, false⟩] (by decide)
    mismatchStruct ⟨[], []⟩ "_EFI_X_PROTOCOL" "Do"
    (fieldEnt (some "Do") (some (methodFieldType protoOneArg declTwoParms))) []
    (methodFieldType protoOneArg declTwoParms) protoOneArg declTwoParms
    ⟨"", .Status, [⟨"", .UIntN, .In, false⟩]⟩
    rfl rfl rfl rfl rfl rfl rfl rfl (by decide)

/-! ## C6: the record extractor's skip-vs-error policy -/

/-- C6: (1) a typedef without the `EFI_` prefix fails with the
`unknown typedef` error; (2) a qualifying name ending in `_PROTOCOL` is a
successful skip leaving the module unchanged; (3) a qualifying typedef whose
canonical underlying type exposes no field list is a successful skip leaving
the module unchanged; (4) whenever the record list changes, the typedef
qualified and its canonical underlying type had an aggregate field list. -/
theorem C6_skip_vs_error
    (e1 : CEntity) (m1 : EfiModule) (n1 : String)
    (hn1 : e1.name = some n1) (hp1 : strStartsWith n1 "EFI_" = false)
    (e2 : CEntity) (m2 : EfiModule) (n2 : String)
    (hn2 : e2.name = some n2) (hp2 : strStartsWith n2 "EFI_" = true)
    (hs2 : strEndsWith n2 "_PROTOCOL" = true)
    (e3 : CEntity) (m3 : EfiModule) (n3 : String) (u3 : CType)
    (hn3 : e3.name = some n3) (hp3 : strStartsWith n3 "EFI_" = true)
    (hs3 : strEndsWith n3 "_PROTOCOL" = false)
    (hu3 : e3.underlying = some u3)
    (hfl3 : (getCanonicalType u3).fields = none)
    (e4 : CEntity) (m4 m4' : EfiModule)
    (h4 : processTypedef e4 m4 = .ok m4') (hch : m4'.records ≠ m4.records) :
    processTypedef e1 m1 = .error ("unknown typedef " ++ n1) ∧
    processTypedef e2 m2 = .ok m2 ∧
    processTypedef e3 m3 = .ok m3 ∧
    (e4.name.map (fun n => strStartsWith n "EFI_")) = some true ∧
    (e4.name.map (fun n => strEndsWith n "_PROTOCOL")) = some false ∧
    (e4.underlying.map (fun u => ((getCanonicalType u).fields).isSome)) = some true := by
  refine ⟨?_, ?_, ?_, ?_⟩
  · simp [processTypedef, hn1, hp1]
  · simp [processTypedef, hn2, hp2, hs2]
  · simp [processTypedef, hn3, hp3, hs3, hu3, hfl3]
  · cases hn4 : e4.name with
    | none => simp [processTypedef, hn4] at h4
    | some n4 =>
      by_cases hp4 : strStartsWith n4 "EFI_" = true
      · by_cases hs4 : strEndsWith n4 "_PROTOCOL" = true
        · have hmm : m4 = m4' := by
            simpa [processTypedef, hn4, hp4, hs4] using h4
          exact absurd (by rw [← hmm]) hch
        · cases hu4 : e4.underlying with
          | none => simp [processTypedef, hn4, hp4, hs4, hu4] at h4
          | some u4 =>
            cases hfl4 : (getCanonicalType u4).fields with
            | none =>
              have hmm : m4 = m4' := by
                simpa [processTypedef, hn4, hp4, hs4, hu4, hfl4] using h4
              exact absurd (by rw [← hmm]) hch
            | some fl4 =>
              simp [hn4, hp4, hs4, hu4, hfl4]
      · simp [processTypedef, hn4, hp4] at h4

/-- C6 witness: the three skip-vs-error branches and a record-producing
typedef, on concrete inputs. -/
theorem C6_witness :
    processTypedef tdNoPrefixEnt ⟨[], []⟩ = .error ("unknown typedef " ++ "XYZ") ∧
    processTypedef tdProtoEnt ⟨[], []⟩ = .ok ⟨[], []⟩ ∧
    processTypedef tdScalarEnt ⟨[], []⟩ = .ok ⟨[], []⟩ ∧
    (tdEnt.name.map (fun n => strStartsWith n "EFI_")) = some true ∧
    (tdEnt.name.map (fun n => strEndsWith n "_PROTOCOL")) = some false ∧
    (tdEnt.underlying.map (fun u => ((getCanonicalType u).fields).isSome)) = some true :=
  C6_skip_vs_error tdNoPrefixEnt ⟨[], []⟩ "XYZ" rfl rfl
    tdProtoEnt ⟨[], []⟩ "EFI_X_PROTOCOL" rfl rfl rfl
    tdScalarEnt ⟨[], []⟩ "EFI_SCALAR" (recType "efi_uintn") rfl rfl rfl rfl rfl
    tdEnt ⟨[], []⟩ ⟨[], [.EfiStruct "EFI_SAMPLE" [⟨"a", .UIntN⟩]]⟩ rfl (by decide)

/-! ## C5: protocols partition a qualifying struct's members -/

theorem filter_length_partition (pb : CEntity → Bool) :
    ∀ fs : List CEntity,
      (fs.filter pb).length + (fs.filter (fun f => ! pb f)).length = fs.length
  | [] => rfl
  | f :: rest => by
    have ih := filter_length_partition pb rest
    cases hf : pb f <;> simp [List.filter_cons, hf] <;> omega

/-- The member loop's successful results, characterized: the name is kept,
method names extend by the names of the function-pointer members in order,
and data-field names extend by the names of the remaining members in order. -/
theorem structFieldsLoop_ok_spec :
    ∀ (fs : List CEntity) (p q : EfiProtocol),
      structFieldsLoop fs p = .ok q →
      q.name = p.name ∧
      q.methods.map EfiMethod.name =
        p.methods.map EfiMethod.name ++ (fs.filter isMethodField).map fieldNameD ∧
      q.fields.map EfiField.name =
        p.fields.map EfiField.name ++
          (fs.filter (fun f => ! isMethodField f)).map fieldNameD
  | [], p, q, h => by
    simp only [structFieldsLoop] at h
    cases h
    simp
  | f :: rest, p, q, h => by
    cases hfn : f.name with
    | none => simp [structFieldsLoop, hfn] at h
    | some fname =>
      cases hft : f.typ with
      | none => simp [structFieldsLoop, hfn, hft] at h
      | some ftype =>
        cases hm : andCheck (getCanonicalType ftype).pointee
            (fun t => t.kind == .FunctionPrototype) with
        | some ptype =>
          have hmf : isMethodField f = true := by
            simp [isMethodField, hft, hm]
          cases hdl : ftype.decl with
          | none =>
            simp [structFieldsLoop, hfn, hft, Option.some_bind, hm, hdl] at h
          | some dd =>
            cases hme : toEfiMethod ptype with
            | error s =>
              simp [structFieldsLoop, hfn, hft, Option.some_bind, hm, hdl, hme] at h
            | ok method =>
              cases hpm : processMethodArgs dd ([], method.args) with
              | none =>
                simp [structFieldsLoop, hfn, hft, Option.some_bind, hm, hdl,
                  hme, hpm] at h
              | some st2 =>
                obtain ⟨done, pending⟩ := st2
                have h2 : structFieldsLoop rest
                    { p with methods := p.methods ++
                        [{ method with name := fname, args := done ++ pending }] } =
                      .ok q := by
                  simpa [structFieldsLoop, hfn, hft, Option.some_bind, hm, hdl,
                    hme, hpm] using h
                obtain ⟨hname, hmeths, hflds⟩ := structFieldsLoop_ok_spec rest _ q h2
                refine ⟨hname, ?_, ?_⟩
                · rw [hmeths]
                  simp [List.filter_cons, hmf, fieldNameD, hfn]
                · rw [hflds]
                  simp [List.filter_cons, hmf]
        | none =>
          have hmf : isMethodField f = false := by
            simp [isMethodField, hft, hm]
          cases hte : toEfiType ftype with
          | error s => simp [structFieldsLoop, hfn, hft, hm, hte] at h
          | ok et =>
            have h2 : structFieldsLoop rest
                { p with fields := p.fields ++ [⟨fname, et⟩] } = .ok q := by
              simpa [structFieldsLoop, hfn, hft, hm, hte] using h
            obtain ⟨hname, hmeths, hflds⟩ := structFieldsLoop_ok_spec rest _ q h2
            refine ⟨hname, ?_, ?_⟩
            · rw [hmeths]
              simp [List.filter_cons, hmf]
            · rw [hflds]
              simp [List.filter_cons, hmf, fieldNameD, hfn]

/-- C5: a successful extraction from a qualifying struct appends exactly one
protocol, named by stripping the leading prefix character, whose methods and
data fields partition the member list: methods are the function-pointer
members in order, fields are the remaining members in order, their counts
summing to the member count, and the record list is untouched. -/
theorem C5_protocol_partition (e : CEntity) (m m' : EfiModule) (nm : String)
    (fs : List CEntity)
    (hn : e.name = some nm)
    (hq : (strStartsWith nm "_EFI" && strEndsWith nm "PROTOCOL") = true)
    (hf : e.typ.bind CType.fields = some fs)
    (h : processStruct e m = .ok m') :
    m'.records = m.records ∧
    m'.protocols.length = m.protocols.length + 1 ∧
    m'.protocols.take m.protocols.length = m.protocols ∧
    (m'.protocols.getLast?).map EfiProtocol.name = some (nm.drop 1) ∧
    (m'.protocols.getLast?).map (fun p => p.methods.map EfiMethod.name) =
      some ((fs.filter isMethodField).map fieldNameD) ∧
    (m'.protocols.getLast?).map (fun p => p.fields.map EfiField.name) =
      some ((fs.filter (fun f => ! isMethodField f)).map fieldNameD) ∧
    (m'.protocols.getLast?).map (fun p => p.methods.length + p.fields.length) =
      some fs.length := by
  have hac : andCheck e.name
      (fun n => strStartsWith n "_EFI" && strEndsWith n "PROTOCOL") = some nm := by
    rw [hn]
    simp [andCheck, hq]
  simp only [processStruct, hac, hf] at h
  cases hloop : structFieldsLoop fs ⟨nm.drop 1, [], []⟩ with
  | err s => rw [hloop] at h; cases h
  | crash s => rw [hloop] at h; cases h
  | ok proto =>
    rw [hloop] at h
    cases h
    obtain ⟨hname, hmeths, hflds⟩ := structFieldsLoop_ok_spec fs _ proto hloop
    simp only [List.map_nil, List.nil_append] at hmeths hflds
    have hml : proto.methods.length = (fs.filter isMethodField).length := by
      have := congrArg List.length hmeths
      simpa using this
    have hfl : proto.fields.length = (fs.filter (fun f => ! isMethodField f)).length := by
      have := congrArg List.length hflds
      simpa using this
    refine ⟨rfl, by simp, by simp [List.take_left], ?_, ?_, ?_, ?_⟩
    · simp [List.getLast?_concat, hname]
    · simp [List.getLast?_concat, hmeths]
    · simp [List.getLast?_concat, hflds]
    · rw [List.getLast?_concat]
      show some (proto.methods.length + proto.fields.length) = some fs.length
      rw [hml, hfl, filter_length_partition]

/-- C5 witness: the sample protocol struct (one method `Do`, one data member
`Value`) realizes the partition. -/
theorem C5_witness :
    sampleModule.records = (⟨[], []⟩ : EfiModule).records ∧
    sampleModule.protocols.length = (⟨[], []⟩ : EfiModule).protocols.length + 1 ∧
    sampleModule.protocols.take (⟨[], []⟩ : EfiModule).protocols.length =
      (⟨[], []⟩ : EfiModule).protocols ∧
    (sampleModule.protocols.getLast?).map EfiProtocol.name =
      some ("_EFI_SAMPLE_PROTOCOL".drop 1) ∧
    (sampleModule.protocols.getLast?).map (fun p => p.methods.map EfiMethod.name) =
      some ((sampleStructMembers.filter isMethodField).map fieldNameD) ∧
    (sampleModule.protocols.getLast?).map (fun p => p.fields.map EfiField.name) =
      some ((sampleStructMembers.filter (fun f => ! isMethodField f)).map fieldNameD) ∧
    (sampleModule.protocols.getLast?).map
      (fun p => p.methods.length + p.fields.length) = some sampleStructMembers.length :=
  C5_protocol_partition sampleStruct ⟨[], []⟩ sampleModule
    "_EFI_SAMPLE_PROTOCOL" sampleStructMembers rfl rfl rfl rfl

/-! ## C7: the first failure aborts the whole walk -/

theorem structFieldsLoop_ok_step (f0 : CEntity) (rest : List CEntity)
    (p q : EfiProtocol) (h : structFieldsLoop (f0 :: rest) p = .ok q) :
    f0.name ≠ none ∧ f0.typ ≠ none ∧
    (∀ ftype, f0.typ = some ftype →
      andCheck (getCanonicalType ftype).pointee
        (fun t => t.kind == .FunctionPrototype) = none →
      ∃ v, toEfiType ftype = .ok v) ∧
    ∃ p2, structFieldsLoop rest p2 = .ok q := by
  cases hfn : f0.name with
  | none => simp [structFieldsLoop, hfn] at h
  | some fname =>
    cases hft : f0.typ with
    | none => simp [structFieldsLoop, hfn, hft] at h
    | some ftype =>
      refine ⟨by simp [hfn], by simp [hft], ?_, ?_⟩
      · intro ftype2 hft2 hnone
        obtain rfl := Option.some.inj hft2
        cases hm : andCheck (getCanonicalType ftype).pointee
            (fun t => t.kind == .FunctionPrototype) with
        | some ptype => exact absurd (hm.symm.trans hnone) (by simp)
        | none =>
          cases hte : toEfiType ftype with
          | error s => simp [structFieldsLoop, hfn, hft, hm, hte] at h
          | ok et => exact ⟨et, rfl⟩
      · cases hm : andCheck (getCanonicalType ftype).pointee
            (fun t => t.kind == .FunctionPrototype) with
        | some ptype =>
          cases hdl : ftype.decl with
          | none =>
            simp [structFieldsLoop, hfn, hft, Option.some_bind, hm, hdl] at h
          | some dd =>
            cases hme : toEfiMethod ptype with
            | error s =>
              simp [structFieldsLoop, hfn, hft, Option.some_bind, hm, hdl, hme] at h
            | ok method =>
              cases hpm : processMethodArgs dd ([], method.args) with
              | none =>
                simp [structFieldsLoop, hfn, hft, Option.some_bind, hm, hdl,
                  hme, hpm] at h
              | some st2 =>
                obtain ⟨done, pending⟩ := st2
                exact ⟨_, by
                  simpa [structFieldsLoop, hfn, hft, Option.some_bind, hm, hdl,
                    hme, hpm] using h⟩
        | none =>
          cases hte : toEfiType ftype with
          | error s => simp [structFieldsLoop, hfn, hft, hm, hte] at h
          | ok et =>
            exact ⟨_, by simpa [structFieldsLoop, hfn, hft, hm, hte] using h⟩

/-- A successful member loop forces every member to carry a name and a
type. -/
theorem structFieldsLoop_ok_members :
    ∀ (fs : List CEntity) (p q : EfiProtocol),
      structFieldsLoop fs p = .ok q →
      ∀ f, f ∈ fs → f.name ≠ none ∧ f.typ ≠ none
  | [], _, _, _ => by
    intro f hf
    cases hf
  | f0 :: rest, p, q, h => by
    intro f hf
    obtain ⟨hn0, ht0, _, p2, h2⟩ := structFieldsLoop_ok_step f0 rest p q h
    rcases List.mem_cons.mp hf with hEq | hMem
    · subst hEq
      exact ⟨hn0, ht0⟩
    · exact structFieldsLoop_ok_members rest p2 q h2 f hMem

/-- A successful member loop forces every non-method member's type to
normalize: a present-but-unresolvable type never survives to a protocol. -/
theorem structFieldsLoop_ok_resolvable :
    ∀ (fs : List CEntity) (p q : EfiProtocol),
      structFieldsLoop fs p = .ok q →
      ∀ f ftype, f ∈ fs → f.typ = some ftype →
        andCheck (getCanonicalType ftype).pointee
          (fun t => t.kind == .FunctionPrototype) = none →
        ∃ v, toEfiType ftype = .ok v
  | [], _, _, _ => by
    intro f ftype hf
    cases hf
  | f0 :: rest, p, q, h => by
    intro f ftype hf hft hnone
    obtain ⟨_, _, hres, p2, h2⟩ := structFieldsLoop_ok_step f0 rest p q h
    rcases List.mem_cons.mp hf with hEq | hMem
    · subst hEq
      exact hres ftype hft hnone
    · exact structFieldsLoop_ok_resolvable rest p2 q h2 f ftype hMem hft hnone

/-- A successful record-field loop forces every aggregate member to carry a
name and a type whose normalization succeeds. -/
theorem typedefFieldsLoop_ok_members :
    ∀ (fs : List CEntity) (acc l : List EfiField),
      typedefFieldsLoop fs acc = .ok l →
      ∀ f, f ∈ fs → f.name ≠ none ∧ f.typ ≠ none ∧
        ∀ ftype, f.typ = some ftype → ∃ v, toEfiType ftype = .ok v
  | [], _, _, _ => by
    intro f hf
    cases hf
  | f0 :: rest, acc, l, h => by
    intro f hf
    cases hft : f0.typ with
    | none => simp [typedefFieldsLoop, hft] at h
    | some ftyp =>
      cases hfn : f0.name with
      | none => simp [typedefFieldsLoop, hft, hfn] at h
      | some fname =>
        cases hte : toEfiType ftyp with
        | error s => simp [typedefFieldsLoop, hft, hfn, hte] at h
        | ok et =>
          have h2 : typedefFieldsLoop rest (acc ++ [⟨fname, et⟩]) = .ok l := by
            simpa [typedefFieldsLoop, hft, hfn, hte] using h
          rcases List.mem_cons.mp hf with hEq | hMem
          · subst hEq
            refine ⟨by simp [hfn], by simp [hft], ?_⟩
            intro ftype hftype
            obtain rfl := Option.some.inj (hft.symm.trans hftype)
            exact ⟨et, hte⟩
          · exact typedefFieldsLoop_ok_members rest _ l h2 f hMem

/-- C7: a failing (or panicking) first child short-circuits the sibling
loop, and a dispatched qualifying declaration with a bad member can never
produce a module — whether the declaration is a protocol struct with a
member lacking a name or a type node, a protocol struct with a data member
whose type is present but unresolvable, or a qualifying typedef over an
aggregate with a member lacking a name, lacking a type, or carrying an
unresolvable one: the whole walk yields a failure and no (possibly partial)
module value exists. -/
theorem C7_first_failure_aborts
    (e0 : CEntity) (rest0 : List CEntity) (hdr0 : String) (m0 : EfiModule) (s0 : String)
    (herr : processTu e0 hdr0 m0 = .err s0)
    (e1 : CEntity) (rest1 : List CEntity) (hdr1 : String) (m1 : EfiModule) (s1 : String)
    (hcr : processTu e1 hdr1 m1 = .crash s1)
    (e : CEntity) (hdr : String) (m : EfiModule) (nm : String) (fs : List CEntity)
    (f : CEntity)
    (hloc : e.locPath = some hdr) (hkind : e.kind = .StructDecl)
    (hn : e.name = some nm)
    (hq : (strStartsWith nm "_EFI" && strEndsWith nm "PROTOCOL") = true)
    (hf : e.typ.bind CType.fields = some fs)
    (hmem : f ∈ fs) (hbad : f.name = none ∨ f.typ = none)
    (eS : CEntity) (hdrS : String) (mS : EfiModule) (nmS : String)
    (fsS : List CEntity) (fS : CEntity) (ftypeS : CType) (sS : String)
    (hlocS : eS.locPath = some hdrS) (hkindS : eS.kind = .StructDecl)
    (hnS : eS.name = some nmS)
    (hqS : (strStartsWith nmS "_EFI" && strEndsWith nmS "PROTOCOL") = true)
    (hfS : eS.typ.bind CType.fields = some fsS)
    (hmemS : fS ∈ fsS) (hftS : fS.typ = some ftypeS)
    (hdataS : andCheck (getCanonicalType ftypeS).pointee
      (fun t => t.kind == .FunctionPrototype) = none)
    (hbadS : toEfiType ftypeS = .error sS)
    (eT : CEntity) (hdrT : String) (mT : EfiModule) (nmT : String) (uT : CType)
    (fsT : List CEntity) (fT : CEntity)
    (hlocT : eT.locPath = some hdrT) (hkindT : eT.kind = .TypedefDecl)
    (hnT : eT.name = some nmT)
    (hpT : strStartsWith nmT "EFI_" = true)
    (hsT : strEndsWith nmT "_PROTOCOL" = false)
    (huT : eT.underlying = some uT)
    (hflT : (getCanonicalType uT).fields = some fsT)
    (hmemT : fT ∈ fsT)
    (hbadT : fT.name = none ∨ fT.typ = none ∨
      ∃ ftypeT sT2, fT.typ = some ftypeT ∧ toEfiType ftypeT = .error sT2) :
    processTuAll (e0 :: rest0) hdr0 m0 = .err s0 ∧
    processTuAll (e1 :: rest1) hdr1 m1 = .crash s1 ∧
    (processTu e hdr m).isOk = false ∧
    (processTu eS hdrS mS).isOk = false ∧
    (processTu eT hdrT mT).isOk = false := by
  refine ⟨?_, ?_, ?_, ?_, ?_⟩
  · show (match processTu e0 hdr0 m0 with
      | .ok m2 => processTuAll rest0 hdr0 m2
      | .err s => PResult.err s
      | .crash s => PResult.crash s) = .err s0
    rw [herr]
  · show (match processTu e1 hdr1 m1 with
      | .ok m2 => processTuAll rest1 hdr1 m2
      | .err s => PResult.err s
      | .crash s => PResult.crash s) = .crash s1
    rw [hcr]
  · cases e with
    | mk kind name typ und children locPath =>
      simp only [CEntity.locPath] at hloc
      simp only [CEntity.kind] at hkind
      simp only [CEntity.name] at hn
      simp only [CEntity.typ] at hf
      subst hloc
      subst hkind
      subst hn
      have hP : processTu
          (CEntity.mk .StructDecl (some nm) typ und children (some hdr)) hdr m =
          processStruct
            (CEntity.mk .StructDecl (some nm) typ und children (some hdr)) m := by
        simp [processTu, andCheck]
      rw [hP]
      have hac : andCheck
          (CEntity.mk .StructDecl (some nm) typ und children (some hdr)).name
          (fun n => strStartsWith n "_EFI" && strEndsWith n "PROTOCOL") = some nm := by
        simp [andCheck, CEntity.name, hq]
      cases hloop : structFieldsLoop fs ⟨nm.drop 1, [], []⟩ with
      | ok proto =>
        obtain ⟨hn0, ht0⟩ := structFieldsLoop_ok_members fs _ proto hloop f hmem
        rcases hbad with hb | hb
        · exact absurd hb hn0
        · exact absurd hb ht0
      | err s => simp [processStruct, hac, CEntity.typ, hf, hloop, PResult.isOk]
      | crash s => simp [processStruct, hac, CEntity.typ, hf, hloop, PResult.isOk]
  · cases eS with
    | mk kind name typ und children locPath =>
      simp only [CEntity.locPath] at hlocS
      simp only [CEntity.kind] at hkindS
      simp only [CEntity.name] at hnS
      simp only [CEntity.typ] at hfS
      subst hlocS
      subst hkindS
      subst hnS
      have hP : processTu
          (CEntity.mk .StructDecl (some nmS) typ und children (some hdrS)) hdrS mS =
          processStruct
            (CEntity.mk .StructDecl (some nmS) typ und children (some hdrS)) mS := by
        simp [processTu, andCheck]
      rw [hP]
      have hac : andCheck
          (CEntity.mk .StructDecl (some nmS) typ und children (some hdrS)).name
          (fun n => strStartsWith n "_EFI" && strEndsWith n "PROTOCOL") = some nmS := by
        simp [andCheck, CEntity.name, hqS]
      cases hloopS : structFieldsLoop fsS ⟨nmS.drop 1, [], []⟩ with
      | ok proto =>
        obtain ⟨v, hok⟩ := structFieldsLoop_ok_resolvable fsS _ proto hloopS
          fS ftypeS hmemS hftS hdataS
        rw [hbadS] at hok
        cases hok
      | err s => simp [processStruct, hac, CEntity.typ, hfS, hloopS, PResult.isOk]
      | crash s => simp [processStruct, hac, CEntity.typ, hfS, hloopS, PResult.isOk]
  · cases eT with
    | mk kind name typ und children locPath =>
      simp only [CEntity.locPath] at hlocT
      simp only [CEntity.kind] at hkindT
      simp only [CEntity.name] at hnT
      simp only [CEntity.underlying] at huT
      subst hlocT
      subst hkindT
      subst hnT
      subst huT
      have hP : processTu
          (CEntity.mk .TypedefDecl (some nmT) typ (some uT) children (some hdrT))
            hdrT mT =
          PResult.ofExcept (processTypedef
            (CEntity.mk .TypedefDecl (some nmT) typ (some uT) children (some hdrT))
            mT) := by
        simp [processTu, andCheck]
      rw [hP]
      cases hloopT : typedefFieldsLoop fsT [] with
      | ok l =>
        obtain ⟨hn1, ht1, hres⟩ := typedefFieldsLoop_ok_members fsT [] l hloopT fT hmemT
        rcases hbadT with hb | hb | ⟨ftypeT, sT2, hftT, herrT⟩
        · exact absurd hb hn1
        · exact absurd hb ht1
        · obtain ⟨v, hok⟩ := hres ftypeT hftT
          rw [herrT] at hok
          cases hok
      | error s =>
        simp [processTypedef, CEntity.name, CEntity.underlying, hpT, hsT, hflT,
          hloopT, PResult.ofExcept, PResult.isOk]

/-- C7 witness: the unnamed-member struct errs the walk, the mismatching
struct crashes it, and none of the bad declarations — unnamed struct member,
unresolvable-typed data member, or typedef over an aggregate with an unnamed
member — yields a module. -/
theorem C7_witness :
    processTuAll [unnamedMemberStruct] "efi.h" ⟨[], []⟩ = .err "field lacks name" ∧
    processTuAll [mismatchStruct] "efi.h" ⟨[], []⟩ = .crash "missing argument name" ∧
    (processTu unnamedMemberStruct "efi.h" ⟨[], []⟩).isOk = false ∧
    (processTu badFieldStruct "efi.h" ⟨[], []⟩).isOk = false ∧
    (processTu tdBadEnt "efi.h" ⟨[], []⟩).isOk = false :=
  C7_first_failure_aborts unnamedMemberStruct [] "efi.h" ⟨[], []⟩ "field lacks name" rfl
    mismatchStruct [] "efi.h" ⟨[], []⟩ "missing argument name" rfl
    unnamedMemberStruct "efi.h" ⟨[], []⟩ "_EFI_BAD_PROTOCOL" unnamedMemberStructMembers
    (fieldEnt none (some (recType "efi_uintn")))
    rfl rfl rfl rfl rfl
    (List.mem_cons_of_mem _ (List.mem_cons_self _ _)) (Or.inl rfl)
    badFieldStruct "efi.h" ⟨[], []⟩ "_EFI_UGLY_PROTOCOL" badFieldStructMembers
    (fieldEnt (some "V") (some badScalar)) badScalar ("unsupported type " ++ "int")
    rfl rfl rfl rfl rfl (List.mem_cons_self _ _) rfl rfl rfl
    tdBadEnt "efi.h" ⟨[], []⟩ "EFI_BADREC" badAggType badAggMembers
    (fieldEnt none (some (recType "efi_uintn")))
    rfl rfl rfl rfl rfl rfl rfl (List.mem_cons_self _ _) (Or.inl rfl)

end EfiBindgen
